import Mathlib

/-!
Verification of the Schema-Resolving Streaming Aggregation Engine of the
geografia_da_cognicao repository. The definitions below are shallow
embeddings of the Python pipelines under src/src/cog/:

* `detect_separator`  — SaebPipeline.detect_separator
  (01_process_saeb_historical.py, lines 75-82);
* `find_col_flexible` — SaebPipeline.find_col_flexible
  (01_process_saeb_historical.py, lines 84-93; the ENEM variant in
  cog_02_process_unified_enem_pypeline.py, lines 109-113, is the same
  function with no substring fallback);
* `colMap`            — the dict comprehension building col_map in
  EnemPipeline.process (cog_02_process_unified_enem_pypeline.py, line 126);
* `chunkAcc`/`mergeAcc`/`finalizeAcc` — the chunked sum/count aggregation
  of process_year (04_process_enem_historical.py, lines 124-182);
* `cleanCell`         — numeric coercion plus the replace(0, NaN)
  zero-sentinel step (04_process_enem_historical.py, lines 140-145);
* `enemFinal`         — the finalize step of EnemPipeline.process
  (cog_02_process_unified_enem_pypeline.py, lines 156-161), which divides
  every per-field sum by the group row count N_Alunos;
* `isPublicFlag`/`networkFilter` — the network classification and filter
  of SaebPipeline.process (cog_03_process_unified_saeb_pypeline.py,
  lines 151-159);
* `saebMeanPort`      — the per-group weighted/simple mean of
  SaebPipeline.process (cog_03_process_unified_saeb_pypeline.py,
  lines 173-185);
* `pisaWeightedMean`  — PisaUnifiedETL._calc_weighted
  (cog_01_process_unified_pisa_pipeline.py, lines 120-145);
* `ibgeToSigla`/`enemGroups` — group-key normalization and the pandas
  groupby (which silently drops null keys but keeps any non-null key).

Missing values (pandas NaN produced by to_numeric(errors="coerce"),
failed map lookups, or absent cells) are embedded as `none : Option ℚ`;
floating-point numbers are embedded as exact rationals.
-/

namespace GeoCog

/-- Number of occurrences of character c in a string, as Python str.count. -/
def countCh (line : String) (c : Char) : ℕ :=
  (line.data.filter (fun x => x = c)).length

/-- Does the token list occur at the head of the second list. -/
def leadEq : List Char → List Char → Bool
  | [], _ => true
  | _ :: _, [] => false
  | a :: ta, b :: tb => a = b && leadEq ta tb

/-- Does the token list occur contiguously anywhere in the second list
(Python substring membership test). -/
def hasTok : List Char → List Char → Bool
  | tok, [] => tok.isEmpty
  | tok, s@(_ :: t) => leadEq tok s || hasTok tok t

/-! ## Format sniffer (SaebPipeline.detect_separator) -/

/-- A seekable input stream positioned somewhere in a file whose first
line has the given raw bytes. -/
structure InStream where
  lineBytes : List ℕ
  pos : ℕ
  deriving DecidableEq

/-- f.readline(): returns the first line's bytes and advances the
position by their number. -/
def readline (s : InStream) : List ℕ × InStream :=
  (s.lineBytes, ⟨s.lineBytes, s.pos + s.lineBytes.length⟩)

/-- bytes.decode("latin1"): total on actual bytes; decoding fails only
on out-of-range values, which models the except branch of the source. -/
def decodeLatin1 (bs : List ℕ) : Option String :=
  if bs.all (fun b => b < 256) then some (String.mk (bs.map (fun b => Char.ofNat b))) else none

/-- f.seek(0). -/
def seek0 (s : InStream) : InStream := ⟨s.lineBytes, 0⟩

/-- SaebPipeline.detect_separator (01_process_saeb_historical.py, 75-82):
read one line, decode latin1, seek(0), return the more frequent of
semicolon and comma; on failure seek(0) and return the semicolon default. -/
def detect_separator (s : InStream) : String × InStream :=
  let r := readline s
  match decodeLatin1 r.1 with
  | some line =>
      (if countCh line ';' > countCh line ',' then ";" else ",", seek0 r.2)
  | none => (";", seek0 r.2)

/-! ## Schema resolver -/

/-- Python str.upper, character by character (the observed column names
are ASCII, where Char.toUpper agrees with Python). -/
def upStr (s : String) : String := String.mk (s.data.map Char.toUpper)

/-- The lookup function of the Python dict comprehension
header_upper = (h.upper() mapped to h, for h in header): a later header
entry with the same uppercase form overwrites an earlier one. -/
def headerUpper (header : List String) : String → Option String :=
  header.foldl (fun d h => fun k => if k = upStr h then some h else d k) (fun _ => none)

/-- SaebPipeline.find_col_flexible (01_process_saeb_historical.py, 84-93):
first candidate (in declared order) whose uppercase form is a key of
header_upper wins and returns the stored physical name; otherwise, if a
substring fallback is declared, the first header entry containing the
token case-insensitively wins; otherwise None. The ENEM variant
(cog_02, lines 109-113) is the same with fb = none. -/
def find_col_flexible (header cands : List String) (fb : Option String) : Option String :=
  match cands.find? (fun c => (headerUpper header (upStr c)).isSome) with
  | some c => headerUpper header (upStr c)
  | none =>
      match fb with
      | some tok => header.find? (fun h => hasTok (upStr tok).data (upStr h).data)
      | none => none

/-- Case-insensitive exact-match test of one candidate against a header,
as the claim states it. -/
def matchesHeader (header : List String) (c : String) : Bool :=
  header.any (fun h => upStr h == upStr c)

/-- The dict comprehension of EnemPipeline.process, line 126:
col_map maps the resolved physical name of each logical field to that
logical field, iterating the catalog in declaration order, a later
logical field overwriting an earlier one on the same physical key. -/
def colMap (catalog : List (String × List String)) (header : List String) :
    String → Option String :=
  catalog.foldl
    (fun d kv =>
      match find_col_flexible header kv.2 none with
      | some q => fun x => if x = q then some kv.1 else d x
      | none => d)
    (fun _ => none)

/-- The last catalog entry (in declaration order) whose candidate list
resolves to the given physical column. -/
def lastHit (catalog : List (String × List String)) (header : List String)
    (p : String) : Option String :=
  (catalog.reverse.find? (fun kv => find_col_flexible header kv.2 none == some p)).map
    (fun kv => kv.1)

/-! ## Streaming aggregation (process_year, 04_process_enem_historical.py) -/

/-- One physical record after numeric coercion: a group key (None when
the UF cell is missing, in which case pandas groupby drops the row) and
a per-field optional numeric value (None embeds NaN). -/
structure HRow where
  uf : Option String
  val : String → Option ℚ

/-- pd.to_numeric(errors="coerce") followed, on fields marked
zero-sentinel, by replace(0, NaN) (04_process_enem_historical.py,
lines 140-145): a recorded exact 0 in a marked field becomes missing;
an unmarked field keeps its value. -/
def cleanCell (marked : Bool) (raw : Option ℚ) : Option ℚ :=
  match raw with
  | none => none
  | some v => if marked then (if v = 0 then none else some v) else some v

/-- Apply the zero-sentinel cleaning of one chunk row, field by field. -/
def cleanRow (zs : String → Bool) (r : HRow) : HRow :=
  ⟨r.uf, fun f => cleanCell (zs f) (r.val f)⟩

/-- The per-(group, field) partial accumulator map: running sum of the
present values and running count of the present values, as produced for
every chunk by groupby(uf).agg(sum, count). -/
def Acc : Type := String → String → ℚ × ℕ

/-- The empty accumulator map. -/
def emptyAcc : Acc := fun _ _ => (0, 0)

/-- Merging two accumulator maps: key-wise element-wise addition, as
performed by pd.concat(chunk_aggs).groupby(level=0).sum()
(04_process_enem_historical.py, lines 165-168; the same pattern at
cog_02_process_unified_enem_pypeline.py, line 156). -/
def mergeAcc (a b : Acc) : Acc :=
  fun k f => ((a k f).1 + (b k f).1, (a k f).2 + (b k f).2)

/-- The contribution of a single row: a present value v of a requested
field adds (v, 1) to its group's cell; a missing value, a field outside
the requested list, or a row with a missing group key adds nothing. -/
def rowAcc (fields : List String) (r : HRow) : Acc :=
  fun k f =>
    if r.uf = some k ∧ f ∈ fields then
      match r.val f with
      | some v => (v, 1)
      | none => (0, 0)
    else (0, 0)

/-- Fold one chunk of rows into a partial accumulator map
(the chunk-level groupby(uf).agg(sum, count)). -/
def chunkAcc (fields : List String) (rows : List HRow) : Acc :=
  (rows.map (rowAcc fields)).foldl mergeAcc emptyAcc

/-- Aggregate a chunked input: fold every chunk, then merge the partial
accumulator maps by key-wise addition. -/
def accOfChunks (fields : List String) (chunks : List (List HRow)) : Acc :=
  (chunks.map (chunkAcc fields)).foldl mergeAcc emptyAcc

/-- The finalize step of process_year (04_process_enem_historical.py,
lines 176-182): per group and field, sum divided by count; pandas 0/0
yields NaN, embedded as None, when the count is 0. -/
def finalizeAcc (a : Acc) (k f : String) : Option ℚ :=
  if (a k f).2 = 0 then none else some ((a k f).1 / ((a k f).2 : ℚ))

/-- Present-value count of a field in a group, computed directly on the
rows rather than through the accumulator fold. -/
def presentCount (rows : List HRow) (k f : String) : ℕ :=
  ((rows.filter (fun r => r.uf = some k)).filterMap (fun r => r.val f)).length

/-- Present-value sum of a field in a group, computed directly on the rows. -/
def presentSum (rows : List HRow) (k f : String) : ℚ :=
  ((rows.filter (fun r => r.uf = some k)).filterMap (fun r => r.val f)).sum

/-! ## Finalization of EnemPipeline.process (cog_02, lines 143-161) -/

/-- The rows of a group (pandas groupby bucket for a non-null key). -/
def groupRows (rows : List HRow) (k : String) : List HRow :=
  rows.filter (fun r => r.uf = some k)

/-- N_Alunos of a group: every kept row contributes 1
(cog_02_process_unified_enem_pypeline.py, line 151), so the summed
column is the group's row count. -/
def enemN (rows : List HRow) (k : String) : ℕ :=
  (groupRows rows k).length

/-- The finalize step of EnemPipeline.process (cog_02, lines 156-161):
each field's accumulated sum of present values is divided by total_n,
the group's total row count, not by the field's present count. A group
with no rows produces no output row, embedded as None. -/
def enemFinal (rows : List HRow) (k f : String) : Option ℚ :=
  if enemN rows k = 0 then none
  else some (presentSum rows k f / (enemN rows k : ℚ))

/-- The group keys of the finalized output: pandas groupby keeps every
distinct non-null key and silently drops rows whose key is null. -/
def enemGroups (rows : List HRow) : List String :=
  (rows.filterMap (fun r => r.uf)).dedup

/-! ## SAEB network filter (cog_03_process_unified_saeb_pypeline.py, 151-159) -/

/-- One row of the SAEB school frame after numeric coercion of the
administrative-dependency column (TEMP_ADM); None embeds NaN, i.e. a
missing or non-coercible code. -/
structure SRow where
  adm : Option ℚ
  lp : Option ℚ
  mt : Option ℚ
  n : ℚ
  deriving DecidableEq

/-- Is_Public (cog_03, lines 152-156): when the administrative column
resolved, 0 if the coerced code equals 4 and 1 otherwise (NaN compares
unequal to 4, hence 1); when the column is absent, 1 for every row. -/
def isPublicFlag (colAdm : Bool) (adm : Option ℚ) : ℚ :=
  if colAdm then
    match adm with
    | some x => if x = 4 then 0 else 1
    | none => 1
  else 1

/-- The network filter (cog_03, lines 158-159): PUBLIC keeps rows with
Is_Public = 1, PRIVATE keeps rows with Is_Public = 0, anything else
(ALL) keeps every row. -/
def networkFilter (net : String) (colAdm : Bool) (rows : List SRow) : List SRow :=
  if net = "PUBLIC" then rows.filter (fun r => isPublicFlag colAdm r.adm = 1)
  else if net = "PRIVATE" then rows.filter (fun r => isPublicFlag colAdm r.adm = 0)
  else rows

/-! ## SAEB weighted aggregation (cog_03, lines 173-185) -/

/-- One row of the sub frame after dropna on both score columns and
fillna(0) on N_Alunos: group key, one score value, one weight. -/
structure WRow where
  uf : String
  v : ℚ
  w : ℚ
  deriving DecidableEq

/-- Weight total of a row list. -/
def wsum (rows : List WRow) : ℚ := (rows.map (fun r => r.w)).sum

/-- One pandas groupby bucket. -/
def wGroup (rows : List WRow) (k : String) : List WRow :=
  rows.filter (fun r => r.uf = k)

/-- x.mean(): arithmetic mean of the score values. -/
def simpleMean (rows : List WRow) : ℚ :=
  (rows.map (fun r => r.v)).sum / (rows.length : ℚ)

/-- np.average(values, weights): weighted-sum over weight-sum. -/
def npAverage (rows : List WRow) : ℚ :=
  (rows.map (fun r => r.v * r.w)).sum / wsum rows

/-- The per-group mean of SaebPipeline.process (cog_03, lines 173-185):
if the whole frame's weight total is positive, each group takes the
weighted average when its own weight total is positive and otherwise
falls back to the group's simple mean; if the whole frame's weight
total is not positive, every group takes its simple mean. A group with
no rows produces no output row, embedded as None. -/
def saebMeanPort (rows : List WRow) (k : String) : Option ℚ :=
  let g := wGroup rows k
  if g = [] then none
  else if 0 < wsum rows then
    some (if 0 < wsum g then npAverage g else simpleMean g)
  else some (simpleMean g)

/-! ## PISA weighted mean (cog_01_process_unified_pisa_pipeline.py, 120-145) -/

/-- One PISA student row after numeric coercion: group key, one
plausible-value column, the W_FSTUWT sampling weight; None embeds NaN. -/
structure PRow where
  g : String
  v : Option ℚ
  w : Option ℚ
  deriving DecidableEq

/-- The valid pairs of a group: rows where both the value and the weight
are non-missing (the notna mask of _calc_weighted, line 130). -/
def pisaValid (rows : List PRow) (k : String) : List (ℚ × ℚ) :=
  (rows.filter (fun r => r.g = k)).filterMap
    (fun r =>
      match r.v, r.w with
      | some v, some w => some (v, w)
      | _, _ => none)

/-- The weight total of a group's valid pairs. -/
def pisaWS (rows : List PRow) (k : String) : ℚ :=
  ((pisaValid rows k).map (fun p => p.2)).sum

/-- The weighted sum of a group's valid pairs. -/
def pisaWVS (rows : List PRow) (k : String) : ℚ :=
  ((pisaValid rows k).map (fun p => p.1 * p.2)).sum

/-- PisaUnifiedETL._calc_weighted per group (cog_01, lines 129-135):
np.average over the valid pairs when their weight total is positive,
NaN otherwise; when the weight column never resolved the whole
computation is skipped and every group's weighted mean is missing. -/
def pisaWeightedMean (wResolved : Bool) (rows : List PRow) (k : String) : Option ℚ :=
  if wResolved then
    if 0 < pisaWS rows k then some (pisaWVS rows k / pisaWS rows k) else none
  else none

/-! ## Group-key normalization and the closed key set -/

/-- IBGE_TO_SIGLA (cog_03_process_unified_saeb_pypeline.py, lines 53-58)
as an association list from numeric state code to state abbreviation. -/
def IBGE_TO_SIGLA : List (ℚ × String) :=
  [(11, "RO"), (12, "AC"), (13, "AM"), (14, "RR"), (15, "PA"), (16, "AP"), (17, "TO"),
   (21, "MA"), (22, "PI"), (23, "CE"), (24, "RN"), (25, "PB"), (26, "PE"), (27, "AL"),
   (28, "SE"), (29, "BA"),
   (31, "MG"), (32, "ES"), (33, "RJ"), (35, "SP"), (41, "PR"), (42, "SC"), (43, "RS"),
   (50, "MS"), (51, "MT"), (52, "GO"), (53, "DF")]

/-- Series.map(IBGE_TO_SIGLA): a code outside the dictionary maps to
NaN, embedded as None. -/
def ibgeToSigla (c : ℚ) : Option String :=
  (IBGE_TO_SIGLA.find? (fun p => p.1 = c)).map (fun p => p.2)

/-- The 27 state codes of UF_REGION_MAP
(cog_02_process_unified_enem_pypeline.py, lines 64-71). -/
def UF27 : List String :=
  ["RO", "AC", "AM", "RR", "PA", "AP", "TO",
   "MA", "PI", "CE", "RN", "PB", "PE", "AL", "SE", "BA",
   "MG", "ES", "RJ", "SP", "PR", "SC", "RS",
   "MS", "MT", "GO", "DF"]

/-- The 5 macro-region codes of UF_REGION_MAP. -/
def REG5 : List String :=
  ["Norte", "Nordeste", "Sudeste", "Sul", "Centro-Oeste"]

/-! ## Spec-modelled weighted zero-sentinel engine -/

/-- One abstract input row of the spec's aggregation engine:
region key, score, sampling weight. -/
structure GRow where
  region : String
  score : Option ℚ
  weight : Option ℚ
  deriving DecidableEq

/-- Modelled from the spec: no pipeline under src combines a
zero-sentinel score field with a sampling weight, so the Streaming
Aggregator and Statistic Finalizer of spec sections 4.4-4.5 are modelled
here for that combination. Per row of the group: clean the score with
the zero-sentinel rule; if the cleaned score is present, add it to the
sum and bump the count, and when the weight is also present add the
weight to weight_sum and score times weight to weighted_sum. Returns
(sum, count, weight_sum, weighted_sum). -/
def specAccum (zs : Bool) (rows : List GRow) (k : String) : ℚ × ℕ × ℚ × ℚ :=
  (rows.filter (fun r => r.region = k)).foldl
    (fun acc r =>
      match cleanCell zs r.score with
      | none => acc
      | some v =>
          match r.weight with
          | none => (acc.1 + v, acc.2.1 + 1, acc.2.2.1, acc.2.2.2)
          | some w => (acc.1 + v, acc.2.1 + 1, acc.2.2.1 + w, acc.2.2.2 + v * w))
    (0, 0, 0, 0)

/-- Modelled from the spec (section 4.5): simple mean is sum over count,
missing when the count is 0. -/
def specSimple (zs : Bool) (rows : List GRow) (k : String) : Option ℚ :=
  let a := specAccum zs rows k
  if a.2.1 = 0 then none else some (a.1 / (a.2.1 : ℚ))

/-- Modelled from the spec (section 4.5): weighted mean is weighted_sum
over weight_sum, missing when weight_sum is 0. -/
def specWeighted (zs : Bool) (rows : List GRow) (k : String) : Option ℚ :=
  let a := specAccum zs rows k
  if a.2.2.1 = 0 then none else some (a.2.2.2 / a.2.2.1)

/-! ## Accumulator algebra -/

theorem mergeAcc_assoc (a b c : Acc) :
    mergeAcc a (mergeAcc b c) = mergeAcc (mergeAcc a b) c := by
  funext k f
  simp [mergeAcc, add_assoc]

theorem mergeAcc_empty_left (a : Acc) : mergeAcc emptyAcc a = a := by
  funext k f
  simp [mergeAcc, emptyAcc]

theorem mergeAcc_empty_right (a : Acc) : mergeAcc a emptyAcc = a := by
  funext k f
  simp [mergeAcc, emptyAcc]

theorem foldl_mergeAcc_shift (l : List Acc) (a : Acc) :
    l.foldl mergeAcc a = mergeAcc a (l.foldl mergeAcc emptyAcc) := by
  induction l generalizing a with
  | nil => simp [mergeAcc_empty_right]
  | cons x xs ih =>
      simp only [List.foldl_cons]
      rw [ih (mergeAcc a x), ih (mergeAcc emptyAcc x), mergeAcc_empty_left,
        mergeAcc_assoc]

theorem chunkAcc_cons (fields : List String) (r : HRow) (rows : List HRow) :
    chunkAcc fields (r :: rows) = mergeAcc (rowAcc fields r) (chunkAcc fields rows) := by
  simp only [chunkAcc, List.map_cons, List.foldl_cons]
  rw [foldl_mergeAcc_shift, mergeAcc_empty_left]

theorem chunkAcc_append (fields : List String) (l1 l2 : List HRow) :
    chunkAcc fields (l1 ++ l2) = mergeAcc (chunkAcc fields l1) (chunkAcc fields l2) := by
  simp only [chunkAcc, List.map_append, List.foldl_append]
  rw [foldl_mergeAcc_shift]

theorem accOfChunks_eq_join (fields : List String) (chunks : List (List HRow)) :
    accOfChunks fields chunks = chunkAcc fields chunks.flatten := by
  induction chunks with
  | nil => rfl
  | cons c cs ih =>
      simp only [accOfChunks, List.map_cons, List.foldl_cons, List.flatten_cons]
      rw [foldl_mergeAcc_shift, mergeAcc_empty_left]
      show mergeAcc (chunkAcc fields c) (accOfChunks fields cs) = _
      rw [ih, chunkAcc_append]

theorem chunkAcc_eval (fields : List String) (rows : List HRow) (k f : String)
    (hf : f ∈ fields) :
    chunkAcc fields rows k f = (presentSum rows k f, presentCount rows k f) := by
  induction rows with
  | nil => simp [chunkAcc, emptyAcc, presentSum, presentCount]
  | cons r rows ih =>
      rw [chunkAcc_cons]
      by_cases huf : r.uf = some k
      · cases hval : r.val f with
        | none =>
            simp [mergeAcc, rowAcc, huf, hf, hval, presentSum, presentCount,
              List.filter_cons, List.filterMap_cons, ih]
        | some v =>
            simp [mergeAcc, rowAcc, huf, hf, hval, presentSum, presentCount,
              List.filter_cons, List.filterMap_cons, ih, add_comm]
      · simp [mergeAcc, rowAcc, huf, presentSum, presentCount,
          List.filter_cons, ih]

/-! ## Claim theorems -/

/-- C1: chunk invariance of aggregation — for every field list and every
partition of the input rows into chunks, folding each chunk into
per-group sum/count accumulators and merging the partials by
element-wise addition yields exactly the accumulator of all rows in a
single chunk, hence the same finalized per-group statistics; and the
merge is associative. Exact rational equality, which subsumes the
claim's floating tolerance. -/
theorem chunk_invariance :
    (∀ (fields : List String) (chunks : List (List HRow)),
      accOfChunks fields chunks = chunkAcc fields chunks.flatten
      ∧ ∀ k f, finalizeAcc (accOfChunks fields chunks) k f
          = finalizeAcc (chunkAcc fields chunks.flatten) k f)
    ∧ ∀ a b c : Acc, mergeAcc a (mergeAcc b c) = mergeAcc (mergeAcc a b) c := by
  refine ⟨fun fields chunks => ⟨accOfChunks_eq_join fields chunks, fun k f => ?_⟩,
    mergeAcc_assoc⟩
  rw [accOfChunks_eq_join]

/-- Concrete rows for the ENEM finalization counterexample: group A has
one row with MT = 600 and one row whose MT cell is missing. -/
def ex3 : List HRow :=
  [⟨some "A", fun f => if f = "MT" then some 600 else none⟩,
   ⟨some "A", fun _ => none⟩]

/-- C3 counterexample: in EnemPipeline.process the finalized MT mean of
group A is 300 (sum 600 divided by the group row count 2), while the
sum of present MT values divided by the count of rows where MT is
present is 600, so the finalized simple mean is not the claimed
sum-over-present-count. -/
theorem enem_unified_denominator_cex :
    enemFinal ex3 "A" "MT" = some 300
    ∧ presentSum ex3 "A" "MT" / ((presentCount ex3 "A" "MT" : ℚ)) = 600
    ∧ (some (300 : ℚ) : Option ℚ) ≠ some 600 := by
  refine ⟨?_, ?_, by norm_num⟩ <;>
    norm_num [enemFinal, enemN, groupRows, presentSum, presentCount, ex3,
      List.filter_cons, List.filterMap_cons]

/-- C3 amended: in the historical ENEM pipeline (04_process_enem
_historical.py) the finalized simple mean of every requested field is
the accumulated sum of the field's present values divided by the count
of rows where the field is present, and missing when that count is 0;
in the unified ENEM pipeline (cog_02) the denominator is instead the
group's total row count N_Alunos, and a group with no rows produces no
output. -/
theorem simple_mean_finalization :
    (∀ (fields : List String) (rows : List HRow) (k f : String), f ∈ fields →
      finalizeAcc (chunkAcc fields rows) k f =
        if presentCount rows k f = 0 then none
        else some (presentSum rows k f / ((presentCount rows k f : ℚ))))
    ∧ ∀ (rows : List HRow) (k f : String),
        enemFinal rows k f =
          if enemN rows k = 0 then none
          else some (presentSum rows k f / ((enemN rows k : ℚ))) := by
  refine ⟨fun fields rows k f hf => ?_, fun rows k f => rfl⟩
  rw [finalizeAcc, chunkAcc_eval fields rows k f hf]

/-- Concrete SAEB sub-frame for the weighted-mean counterexample: group
A has one school with weight 2, group B one school with weight 0, so
the frame's weight total is positive but group B's is 0. -/
def cex2 : List WRow := [⟨"A", 10, 2⟩, ⟨"B", 7, 0⟩]

/-- C2 counterexample: group B's weight sum is 0, yet
SaebPipeline.process finalizes group B's mean as the group's simple
mean 7 instead of null — the silent substitution the claim rules out. -/
theorem saeb_zero_weight_simple_mean_cex :
    wsum (wGroup cex2 "B") = 0
    ∧ simpleMean (wGroup cex2 "B") = 7
    ∧ saebMeanPort cex2 "B" = some 7
    ∧ (some (7 : ℚ) : Option ℚ) ≠ none := by
  refine ⟨?_, ?_, ?_, by simp⟩ <;>
    norm_num +decide [wsum, wGroup, simpleMean, saebMeanPort, npAverage, cex2,
      List.filter_cons]

/-- C2 amended: the PISA pipeline follows the null-on-zero-weight policy
— per group the weighted mean is weighted_sum over weight_sum when the
weight sum is positive, and null when the weight sum is not positive or
the weight field never resolved; the SAEB pipeline instead substitutes
the group's simple mean whenever the group's weight sum is 0 (and, when
the whole frame's weight total is not positive, for every group). -/
theorem weighted_mean_policy :
    (∀ (rows : List PRow) (k : String),
      (0 < pisaWS rows k →
        pisaWeightedMean true rows k = some (pisaWVS rows k / pisaWS rows k))
      ∧ (¬ 0 < pisaWS rows k → pisaWeightedMean true rows k = none)
      ∧ pisaWeightedMean false rows k = none)
    ∧ ∀ (rows : List WRow) (k : String), wGroup rows k ≠ [] →
        wsum (wGroup rows k) = 0 →
        saebMeanPort rows k = some (simpleMean (wGroup rows k)) := by
  constructor
  · intro rows k
    refine ⟨fun h => ?_, fun h => ?_, rfl⟩ <;> simp [pisaWeightedMean, h]
  · intro rows k hg hw
    by_cases hall : 0 < wsum rows <;>
      simp [saebMeanPort, hg, hall, hw]

/-- Witness for the amended C2 theorem at concrete inputs. -/
theorem weighted_mean_policy_witness :
    (0 < pisaWS [⟨"A", some 5, some 2⟩] "A"
     ∧ pisaWeightedMean true [⟨"A", some 5, some 2⟩] "A"
        = some (pisaWVS [⟨"A", some 5, some 2⟩] "A" / pisaWS [⟨"A", some 5, some 2⟩] "A"))
    ∧ (wGroup cex2 "B" ≠ [] ∧ wsum (wGroup cex2 "B") = 0
       ∧ saebMeanPort cex2 "B" = some (simpleMean (wGroup cex2 "B"))) := by
  have h1 : 0 < pisaWS [⟨"A", some 5, some 2⟩] "A" := by
    norm_num [pisaWS, pisaValid, List.filter_cons, List.filterMap_cons]
  have h2 : wGroup cex2 "B" ≠ [] := by
    norm_num +decide [wGroup, cex2, List.filter_cons]
  have h3 : wsum (wGroup cex2 "B") = 0 := by
    norm_num +decide [wsum, wGroup, cex2, List.filter_cons]
  exact ⟨⟨h1, (weighted_mean_policy.1 [⟨"A", some 5, some 2⟩] "A").1 h1⟩,
    h2, h3, weighted_mean_policy.2 cex2 "B" h2 h3⟩

/-- Witness for the amended C3 theorem at a concrete input. -/
theorem simple_mean_finalization_witness :
    "MT" ∈ ["MT"]
    ∧ finalizeAcc (chunkAcc ["MT"] ex3) "A" "MT" =
        (if presentCount ex3 "A" "MT" = 0 then none
         else some (presentSum ex3 "A" "MT" / ((presentCount ex3 "A" "MT" : ℚ)))) :=
  ⟨by simp, simple_mean_finalization.1 ["MT"] ex3 "A" "MT" (by simp)⟩

/-- The spec's concrete zero-sentinel scenario rows. -/
def scenario : List GRow :=
  [⟨"A", some 600, some 2⟩, ⟨"A", some 0, some 1⟩, ⟨"B", some 500, some 1⟩]

/-- C4: zero-sentinel rule — a recorded exact 0 in a marked field is
treated as missing: the cleaned row contributes nothing to any group's
count or sum for that field; an unmarked field is unaffected by the
cleaning; and on the spec's concrete scenario the finalized statistics
are exactly the expected ones (region A: simple mean 600 with count 1,
weighted mean 600 with weight_sum 2 and weighted_sum 1200; region B:
simple and weighted mean 500). -/
theorem zero_sentinel_rule :
    (∀ (zs : String → Bool) (fields : List String) (rows : List HRow)
        (r : HRow) (f k : String), zs f = true → r.val f = some 0 →
      chunkAcc fields (List.map (cleanRow zs) (r :: rows)) k f
        = chunkAcc fields (List.map (cleanRow zs) rows) k f)
    ∧ (∀ (zs : String → Bool) (f : String) (r : HRow), zs f = false →
        (cleanRow zs r).val f = r.val f)
    ∧ (specSimple true scenario "A" = some 600
       ∧ (specAccum true scenario "A").2.1 = 1
       ∧ (specAccum true scenario "A").2.2.1 = 2
       ∧ (specAccum true scenario "A").2.2.2 = 1200
       ∧ specWeighted true scenario "A" = some 600
       ∧ specSimple true scenario "B" = some 500
       ∧ specWeighted true scenario "B" = some 500) := by
  refine ⟨fun zs fields rows r f k hzs hval => ?_, fun zs f r hzs => ?_, ?_⟩
  · rw [List.map_cons, chunkAcc_cons]
    have hclean : (cleanRow zs r).val f = none := by
      simp [cleanRow, cleanCell, hzs, hval]
    have hrow : rowAcc fields (cleanRow zs r) k f = (0, 0) := by
      simp [rowAcc, hclean]
    show mergeAcc _ _ k f = _
    simp [mergeAcc, hrow]
  · cases hr : r.val f <;> simp [cleanRow, cleanCell, hzs, hr]
  · refine ⟨?_, ?_, ?_, ?_, ?_, ?_, ?_⟩ <;>
      norm_num +decide [specSimple, specWeighted, specAccum, cleanCell,
        scenario, List.filter_cons, List.foldl_cons]

/-- Witness for the C4 theorem at a concrete input: a marked zero cell
contributes nothing, and an unmarked field passes through unchanged. -/
theorem zero_sentinel_rule_witness :
    ((fun _ : String => true) "MT" = true
     ∧ (⟨some "A", fun _ => some 0⟩ : HRow).val "MT" = some 0
     ∧ chunkAcc ["MT"]
         (List.map (cleanRow (fun _ => true)) [(⟨some "A", fun _ => some 0⟩ : HRow)]) "A" "MT"
       = chunkAcc ["MT"] (List.map (cleanRow (fun _ => true)) ([] : List HRow)) "A" "MT")
    ∧ ((fun _ : String => false) "MT" = false
       ∧ (cleanRow (fun _ => false) (⟨some "A", fun _ => some 7⟩ : HRow)).val "MT"
          = (⟨some "A", fun _ => some 7⟩ : HRow).val "MT") :=
  ⟨⟨rfl, rfl,
    zero_sentinel_rule.1 (fun _ => true) ["MT"] [] ⟨some "A", fun _ => some 0⟩ "MT" "A" rfl rfl⟩,
   rfl, zero_sentinel_rule.2.1 (fun _ => false) "MT" ⟨some "A", fun _ => some 7⟩ rfl⟩

/-! ## Schema-resolution lemmas -/

theorem headerUpper_mem_aux (header : List String) (d : String → Option String)
    (k h : String)
    (H : (header.foldl (fun d h => fun x => if x = upStr h then some h else d x) d) k
      = some h) :
    (h ∈ header ∧ upStr h = k) ∨ d k = some h := by
  induction header generalizing d with
  | nil => exact Or.inr H
  | cons a tl ih =>
      rcases ih (fun x => if x = upStr a then some a else d x) H with h1 | h2
      · exact Or.inl ⟨List.mem_cons_of_mem _ h1.1, h1.2⟩
      · by_cases hk : k = upStr a
        · rw [if_pos hk] at h2
          cases h2
          exact Or.inl ⟨List.mem_cons_self _ _, hk.symm⟩
        · rw [if_neg hk] at h2
          exact Or.inr h2

theorem headerUpper_mem (header : List String) (k h : String)
    (H : headerUpper header k = some h) : h ∈ header ∧ upStr h = k := by
  rcases headerUpper_mem_aux header (fun _ => none) k h H with h1 | h2
  · exact h1
  · cases h2

theorem headerUpper_isSome_aux (header : List String) (d : String → Option String)
    (k : String) :
    ((header.foldl (fun d h => fun x => if x = upStr h then some h else d x) d) k).isSome
      = (header.any (fun h => upStr h == k) || (d k).isSome) := by
  induction header generalizing d with
  | nil => simp
  | cons a tl ih =>
      simp only [List.foldl_cons, List.any_cons]
      rw [ih]
      by_cases hk : k = upStr a
      · simp [hk]
      · have hne : (upStr a == k) = false := by
          simp only [beq_eq_false_iff_ne, ne_eq]
          exact fun e => hk e.symm
        simp [hk, hne]

theorem headerUpper_isSome (header : List String) (k : String) :
    (headerUpper header k).isSome = header.any (fun h => upStr h == k) := by
  rw [headerUpper, headerUpper_isSome_aux]
  simp

theorem matchesHeader_pred (header : List String) :
    (fun c => (headerUpper header (upStr c)).isSome) = matchesHeader header := by
  funext c
  rw [headerUpper_isSome]
  rfl

/-- C5: schema-resolution order — if the first candidate (in declared
order) matching a physical name case-insensitively is c, resolution
returns a physical header name whose uppercase form equals c's; if no
candidate matches, resolution returns the first physical name (in
header order) containing the declared substring token
case-insensitively, and is unresolved when no substring predicate is
declared. -/
theorem schema_resolution_order (header cands : List String) (fb : Option String) :
    (∀ c, cands.find? (matchesHeader header) = some c →
      ∃ h, h ∈ header ∧ upStr h = upStr c
        ∧ find_col_flexible header cands fb = some h)
    ∧ (cands.find? (matchesHeader header) = none →
        find_col_flexible header cands fb =
          (match fb with
           | some tok =>
               header.find? (fun h => hasTok (upStr tok).data (upStr h).data)
           | none => none)) := by
  have hpred : (fun c => (headerUpper header (upStr c)).isSome) = matchesHeader header :=
    matchesHeader_pred header
  constructor
  · intro c hc
    have hptrue : matchesHeader header c = true := List.find?_some hc
    have hsome : (headerUpper header (upStr c)).isSome = true := by
      rw [congrFun hpred c]
      exact hptrue
    obtain ⟨h, hh⟩ := Option.isSome_iff_exists.mp hsome
    obtain ⟨hmem, hup⟩ := headerUpper_mem header (upStr c) h hh
    refine ⟨h, hmem, hup, ?_⟩
    unfold find_col_flexible
    rw [hpred, hc]
    exact hh
  · intro hc
    unfold find_col_flexible
    rw [hpred, hc]

/-- Witness for the C5 theorem at concrete inputs: an exact
case-insensitive hit on the second candidate, and a substring-fallback
hit when no candidate matches. -/
theorem schema_resolution_order_witness :
    (List.find? (matchesHeader ["nu_nota_mt"]) ["STATUS", "NU_NOTA_MT"]
        = some "NU_NOTA_MT"
     ∧ ∃ h, h ∈ ["nu_nota_mt"] ∧ upStr h = upStr "NU_NOTA_MT"
        ∧ find_col_flexible ["nu_nota_mt"] ["STATUS", "NU_NOTA_MT"] none = some h)
    ∧ (List.find? (matchesHeader ["SC_DEPENDENCIA_ADM"]) ["IN_PUBLICA"] = none
       ∧ find_col_flexible ["SC_DEPENDENCIA_ADM"] ["IN_PUBLICA"] (some "DEPENDENCIA")
          = (match (some "DEPENDENCIA" : Option String) with
             | some tok =>
                 List.find? (fun h => hasTok (upStr tok).data (upStr h).data)
                   ["SC_DEPENDENCIA_ADM"]
             | none => none)) :=
  ⟨⟨by decide,
    (schema_resolution_order ["nu_nota_mt"] ["STATUS", "NU_NOTA_MT"] none).1
      "NU_NOTA_MT" (by decide)⟩,
   by decide,
   (schema_resolution_order ["SC_DEPENDENCIA_ADM"] ["IN_PUBLICA"]
      (some "DEPENDENCIA")).2 (by decide)⟩

/-! ## Column-map lemmas (C6) -/

theorem colMap_aux (header : List String) (catalog : List (String × List String))
    (d : String → Option String) (p : String) :
    (catalog.foldl
      (fun d kv =>
        match find_col_flexible header kv.2 none with
        | some q => fun x => if x = q then some kv.1 else d x
        | none => d) d) p
    = (catalog.reverse.find?
        (fun kv => find_col_flexible header kv.2 none == some p)).elim (d p)
        (fun kv => some kv.1) := by
  induction catalog generalizing d with
  | nil => rfl
  | cons kv tl ih =>
      simp only [List.foldl_cons, List.reverse_cons, List.find?_append]
      rw [ih]
      cases htl : tl.reverse.find?
          (fun kv => find_col_flexible header kv.2 none == some p) with
      | some kv2 => simp
      | none =>
          simp only [Option.none_or]
          cases hres : find_col_flexible header kv.2 none with
          | none => simp [List.find?_cons, hres]
          | some q =>
              by_cases hpq : q = p
              · simp [List.find?_cons, hres, hpq]
              · have hbeq : (some q == some p) = false := by
                  simp [beq_eq_false_iff_ne, hpq]
                simp only [List.find?_cons, hres, hbeq, cond_false, List.find?_nil,
                  Option.elim_none]
                rw [if_neg (fun e => hpq e.symm)]

/-- C6 counterexample: with a catalog declaring logical field A and then
logical field B, both with the single candidate X, and the header [X],
the resolved mapping assigns the physical column X to the later logical
field B — not to A, the earliest in declaration order as the claim
requires. -/
theorem double_mapping_earliest_cex :
    colMap [("A", ["X"]), ("B", ["X"])] ["X"] "X" = some "B"
    ∧ (some "B" : Option String) ≠ some "A" := by
  exact ⟨by decide, by decide⟩

/-- C6 amended: the resolved mapping is a function from physical column
to logical field — each physical column is assigned at most one logical
field — and when several logical fields resolve to the same physical
column, the latest in catalog declaration order wins: the mapping of a
physical column is exactly the last catalog entry whose candidate list
resolves to it. -/
theorem double_mapping_last_wins :
    ∀ (catalog : List (String × List String)) (header : List String) (p : String),
      colMap catalog header p = lastHit catalog header p := by
  intro catalog header p
  rw [colMap, colMap_aux, lastHit]
  cases catalog.reverse.find?
      (fun kv => find_col_flexible header kv.2 none == some p) <;> rfl

/-! ## Row-filter degradation (C7) -/

/-- A concrete SAEB row whose administrative code is missing. -/
def srow0 : SRow := ⟨none, some 250, some 240, 30⟩

/-- C7 counterexample: for a file whose header lacks the
administrative-network column, a PRIVATE filter does not behave as
Unconditional — it drops the row instead of keeping it. -/
theorem private_filter_drops_all_cex :
    networkFilter "PRIVATE" false [srow0] = []
    ∧ ([] : List SRow) ≠ [srow0] := by
  constructor
  · norm_num +decide [networkFilter, isPublicFlag, srow0, List.filter_cons]
  · simp

/-- C7 amended: in the SAEB pipeline, when the administrative-network
column is absent every row is classified public, so a PUBLIC or ALL
filter keeps every row — aggregation then runs to completion on the
unfiltered rows with no error — while a PRIVATE filter drops every row.
(The unified ENEM pipeline instead skips a mode whose discriminating
column is missing.) -/
theorem filter_degrade :
    ∀ rows : List SRow,
      networkFilter "PUBLIC" false rows = rows
      ∧ networkFilter "ALL" false rows = rows
      ∧ networkFilter "PRIVATE" false rows = [] := by
  intro rows
  refine ⟨?_, ?_, ?_⟩
  · simp +decide [networkFilter, isPublicFlag, List.filter_true]
  · simp +decide [networkFilter]
  · simp +decide [networkFilter, isPublicFlag]

/-! ## Format-sniffer contract (C8) -/

/-- C8: format-sniffer contract — for every seekable stream the sniffer
leaves the position restored to offset 0; when the first line decodes
under the legacy Latin encoding it returns the semicolon delimiter
exactly when the line holds more semicolons than commas and the comma
delimiter otherwise; and when decoding fails it returns the semicolon
default without raising. -/
theorem sniffer_contract :
    ∀ s : InStream,
      (detect_separator s).2.pos = 0
      ∧ (∀ line, decodeLatin1 s.lineBytes = some line →
          (((detect_separator s).1 = ";") ↔ countCh line ';' > countCh line ',')
          ∧ ((detect_separator s).1 = ";" ∨ (detect_separator s).1 = ","))
      ∧ (decodeLatin1 s.lineBytes = none → (detect_separator s).1 = ";") := by
  intro s
  refine ⟨?_, fun line hline => ?_, fun hfail => ?_⟩
  · cases hdec : decodeLatin1 s.lineBytes <;>
      simp [detect_separator, readline, seek0, hdec]
  · have hsep : (detect_separator s).1 =
        if countCh line ';' > countCh line ',' then ";" else "," := by
      simp [detect_separator, readline, hline]
    by_cases hcount : countCh line ';' > countCh line ','
    · rw [hsep, if_pos hcount]
      exact ⟨by simp [hcount], Or.inl rfl⟩
    · rw [hsep, if_neg hcount]
      refine ⟨?_, Or.inr rfl⟩
      simp +decide [hcount]
  · simp [detect_separator, readline, hfail]

/-- Witness for the C8 theorem on a concrete stream whose first line is
two semicolons and one comma, read from position 5. -/
theorem sniffer_contract_witness :
    decodeLatin1 (InStream.mk [59, 59, 44] 5).lineBytes = some ";;,"
    ∧ (((detect_separator (InStream.mk [59, 59, 44] 5)).1 = ";")
        ↔ countCh ";;," ';' > countCh ";;," ',')
    ∧ ((detect_separator (InStream.mk [59, 59, 44] 5)).1 = ";"
       ∨ (detect_separator (InStream.mk [59, 59, 44] 5)).1 = ",") := by
  have h := (sniffer_contract (InStream.mk [59, 59, 44] 5)).2.1 ";;," (by decide)
  exact ⟨by decide, h.1, h.2⟩

/-! ## Group-key set (C9) -/

/-- A concrete row with the unrecognized regional identifier ZZ. -/
def czRow : HRow := ⟨some "ZZ", fun _ => some 500⟩

/-- C9 counterexample: a row whose regional identifier ZZ is outside the
closed set of 27 state codes and 5 macro-region codes is not dropped —
the finalized output carries the group key ZZ with a finalized
statistic. -/
theorem unknown_key_new_group_cex :
    enemGroups [czRow] = ["ZZ"]
    ∧ "ZZ" ∉ UF27 ∧ "ZZ" ∉ REG5
    ∧ enemFinal [czRow] "ZZ" "MT" = some 500 := by
  refine ⟨by decide, by decide, by decide, ?_⟩
  norm_num +decide [enemFinal, enemN, groupRows, presentSum, czRow,
    List.filter_cons, List.filterMap_cons]

/-- C9 amended: the group keys of the finalized ENEM output are exactly
the distinct non-null regional identifiers of the kept rows — a row
with a null key is dropped, but an unrecognized non-null key creates
its own output group instead of being dropped; in the SAEB numeric
path, a state code outside the IBGE dictionary normalizes to null, so
that row is dropped by the groupby. -/
theorem closed_group_keys :
    (∀ (rows : List HRow) (k : String),
      k ∈ enemGroups rows ↔ ∃ r, r ∈ rows ∧ r.uf = some k)
    ∧ ∀ c : ℚ, ibgeToSigla c = none ↔ c ∉ IBGE_TO_SIGLA.map (fun p => p.1) := by
  constructor
  · intro rows k
    simp [enemGroups, List.mem_dedup, List.mem_filterMap]
  · intro c
    simp [ibgeToSigla, List.find?_eq_none, List.mem_map]
    constructor
    · intro h x hx
      exact h c x hx rfl
    · intro h a b hab e
      exact h b (e ▸ hab)

/-! ## SAEB network default (C10) -/

/-- C10: whenever the administrative-dependency column resolves, a row
is classified public exactly when its coerced code is not 4 (and
private exactly when it is 4); consequently a row whose code is missing
or non-coercible (None) is classified public, is kept by the PUBLIC
filter, and is dropped by the PRIVATE filter. -/
theorem saeb_network_default :
    (∀ adm : Option ℚ,
      (isPublicFlag true adm = 1 ↔ adm ≠ some 4)
      ∧ (isPublicFlag true adm = 0 ↔ adm = some 4))
    ∧ ∀ (rows : List SRow) (r : SRow), r.adm = none →
        ((r ∈ networkFilter "PUBLIC" true rows ↔ r ∈ rows)
         ∧ r ∉ networkFilter "PRIVATE" true rows) := by
  constructor
  · intro adm
    cases adm with
    | none =>
        have h4 : (none : Option ℚ) ≠ some 4 := by simp
        norm_num [isPublicFlag, h4]
    | some x =>
        by_cases hx : x = 4 <;> norm_num [isPublicFlag, hx]
  · intro rows r hr
    constructor
    · simp +decide [networkFilter, List.mem_filter, isPublicFlag, hr]
    · simp +decide [networkFilter, List.mem_filter, isPublicFlag, hr]

/-- Witness for the C10 theorem at a concrete row with a missing code. -/
theorem saeb_network_default_witness :
    srow0.adm = none
    ∧ (srow0 ∈ networkFilter "PUBLIC" true [srow0] ↔ srow0 ∈ [srow0])
    ∧ srow0 ∉ networkFilter "PRIVATE" true [srow0] := by
  have h := saeb_network_default.2 [srow0] srow0 rfl
  exact ⟨rfl, h.1, h.2⟩

end GeoCog
